import Mathlib

/-!
Verification development for the vLLM model-worker of this repository
(`llm-ops/llm_ops/app/vllm_worker.py`).

The embedding below models, faithfully to the Python source:
- the sampling-parameter normalization performed inside
  `VLLMWorker.generate_stream` (temperature / top_p clamping, stop-string
  and stop-token-id normalization into a set);
- the streamed wire encoding (`json.dumps(ret) + "\x00"` per increment) and
  its client-side sentinel-framed decoding;
- the non-streaming `VLLMWorker.generate`, which exhausts the stream and
  decodes the last chunk;
- the admission semaphore (`acquire_worker_semaphore` /
  `release_worker_semaphore`) as a transition system over interleaved
  requests;
- the control flow of the HTTP handlers `api_generate_stream` and
  `api_generate` as event traces (acquire / release / abort ordering).

Python floats are modelled as rationals: the only operations the worker
performs on them are `max` and order comparison against the literal `1e-5`,
which are order-faithful, and every numeric literal the claims mention is
exactly representable.  The tokenizer and engine are external collaborators
and enter the model as parameters (an `eos` id, a `decode` function, and the
list of `RequestOutput`s the engine yields for a request).
-/

/-- Strings are modelled as lists of characters so that the byte-level
framing of the stream encoding can be reasoned about elementwise. -/
abbrev Str := List Char

/- ----------------------------------------------------------------------
Sampling normalization, from `VLLMWorker.generate_stream`:

    top_p = max(top_p, 1e-5)
    if temperature <= 1e-5:
        top_p = 1.0
---------------------------------------------------------------------- -/

/-- The small positive floor `1e-5` used by `generate_stream`. -/
def epsQ : ℚ := 1 / 100000

/-- `normTopP temperature topP` is the engine-facing `top_p` produced by
`generate_stream`: first `top_p = max(top_p, 1e-5)`, then
`if temperature <= 1e-5: top_p = 1.0`. -/
def normTopP (temperature topP : ℚ) : ℚ :=
  let tp := max topP epsQ
  if temperature ≤ epsQ then 1 else tp

/- ----------------------------------------------------------------------
Stop handling, from `VLLMWorker.generate_stream`:

    stop_str = params.get("stop", None)
    stop_token_ids = params.get("stop_token_ids", None) or []
    if self.tokenizer.eos_token_id is not None:
        stop_token_ids.append(self.tokenizer.eos_token_id)
    stop = set()
    if isinstance(stop_str, str) and stop_str != "":
        stop.add(stop_str)
    elif isinstance(stop_str, list) and stop_str != []:
        stop.update(stop_str)
    for tid in stop_token_ids:
        if tid is not None:
            stop.add(self.tokenizer.decode(tid))
---------------------------------------------------------------------- -/

/-- The dynamically-typed `params.get("stop", None)` value: absent (`None`),
a single string, or a list of strings.  Any other Python type falls through
both `isinstance` checks, which behaves like `absent`. -/
inductive StopIn where
  | absent : StopIn
  | str (s : Str) : StopIn
  | list (l : List Str) : StopIn

/-- The tokenizer interface the worker consumes: an optional
end-of-sequence token id and a decode function from token id to string. -/
structure Tok where
  eos : Option ℕ
  decode : ℕ → Str

/-- The request parameters read by `generate_stream`.  Each field models one
`params.get(...)` with its Python default; `none` means the key was absent.
Entries of `stopTokenIds` are `Option ℕ` because the Python loop skips
`None` entries (`if tid is not None`). -/
structure GenParams where
  temperature : Option ℚ := none
  topP : Option ℚ := none
  maxNewTokens : Option ℕ := none
  stop : StopIn := .absent
  stopTokenIds : Option (List (Option ℕ)) := none
  echo : Option Bool := none

/-- The first stage of stop normalization: the `isinstance` dispatch on
`stop_str`.  An empty string and an empty list contribute nothing. -/
def stopOfStr : StopIn → Finset Str
  | .absent => ∅
  | .str s => if s ≠ [] then {s} else ∅
  | .list l => if l ≠ [] then l.toFinset else ∅

/-- The effective `stop_token_ids` list after
`stop_token_ids = params.get("stop_token_ids", None) or []` and the
unconditional append of the eos token id when the tokenizer has one. -/
def effStopIds (tok : Tok) (p : GenParams) : List (Option ℕ) :=
  let ids := p.stopTokenIds.getD []
  match tok.eos with
  | some e => ids ++ [some e]
  | none => ids

/-- The final stop set built by `generate_stream`: the stop-string
contribution unioned with the decoded form of every non-`None` stop token
id (the `for tid in stop_token_ids` loop). -/
def stopSet (tok : Tok) (p : GenParams) : Finset Str :=
  stopOfStr p.stop ∪
    (((effStopIds tok p).filterMap (fun x => x)).map tok.decode).toFinset

/- ----------------------------------------------------------------------
Stream encoding, from `VLLMWorker.generate_stream`:

    ret = \x7b"text": text_outputs, "error_code": 0, "usage": \x7b\x7d\x7d
    yield (json.dumps(ret) + "\x00").encode()

`json.dumps` of that dict (default separators) produces
`\x7b"text": "<escaped text>", "error_code": 0, "usage": \x7b\x7d\x7d`.
The string escaping below models the escapes `json.dumps` emits for the
characters that matter to the framing claims: `"`, `\`, and every control
character below 0x20 (shorthand escapes for backspace, tab, newline,
form feed, carriage return; `\u00xx` otherwise).  Characters at or above
0x20 other than `"` and `\` pass through unchanged; `ensure_ascii`
escaping of non-ASCII characters is not modelled, which is harmless for
the claims because a passed-through character is never the NUL sentinel.
---------------------------------------------------------------------- -/

/-- The frame delimiter appended after every encoded unit: the NUL byte
from `json.dumps(ret) + "\x00"`. -/
def sentinel : Char := Char.ofNat 0

/-- Lowercase hexadecimal digit character for a value below 16. -/
def hexDigit (n : ℕ) : Char :=
  if n < 10 then Char.ofNat (48 + n) else Char.ofNat (87 + n)

/-- JSON string escaping of one character, as `json.dumps` emits it. -/
def escChar (c : Char) : Str :=
  if c = '"' then ['\\', '"']
  else if c = '\\' then ['\\', '\\']
  else if c = '\x08' then ['\\', 'b']
  else if c = '\x09' then ['\\', 't']
  else if c = '\x0a' then ['\\', 'n']
  else if c = '\x0c' then ['\\', 'f']
  else if c = '\x0d' then ['\\', 'r']
  else if c.toNat < 32 then
    ['\\', 'u', '0', '0', hexDigit (c.toNat / 16), hexDigit (c.toNat % 16)]
  else [c]

/-- JSON string escaping of a whole text. -/
def escString (s : Str) : Str := (s.map escChar).flatten

/-- The fixed part of the encoded unit before the text value. -/
def jsonHead : Str := "\x7b\"text\": \"".data

/-- The fixed part of the encoded unit after the text value's closing
quote: the `error_code: 0` and empty `usage` fields. -/
def jsonTail : Str := ", \"error_code\": 0, \"usage\": \x7b\x7d\x7d".data

/-- `json.dumps` of the unit dict yielded by `generate_stream` (its `text`
field is the only varying part; `error_code` is always `0` and `usage`
always empty on the yield path). -/
def encodeUnit (t : Str) : Str := jsonHead ++ (escString t ++ '"' :: jsonTail)

/-- Hexadecimal digit value of a character, accepted case-insensitively as
`json.loads` does. -/
def hexVal (c : Char) : Option ℕ :=
  if 48 ≤ c.toNat ∧ c.toNat ≤ 57 then some (c.toNat - 48)
  else if 97 ≤ c.toNat ∧ c.toNat ≤ 102 then some (c.toNat - 87)
  else if 65 ≤ c.toNat ∧ c.toNat ≤ 70 then some (c.toNat - 55)
  else none

/-- Client-side JSON string parsing: consumes an escaped string body up to
and including its closing quote, returning the unescaped text and the
remaining input.  Fuel-indexed; one unit of fuel is spent per produced
character, so `input.length` fuel always suffices. -/
def parseStr : ℕ → Str → Option (Str × Str)
  | 0, _ => none
  | _ + 1, [] => none
  | fuel + 1, c :: rest =>
    if c = '"' then some ([], rest)
    else if c = '\\' then
      match rest with
      | [] => none
      | e :: rest2 =>
        if e = '"' then (parseStr fuel rest2).map (fun p => ('"' :: p.1, p.2))
        else if e = '\\' then (parseStr fuel rest2).map (fun p => ('\\' :: p.1, p.2))
        else if e = 'b' then (parseStr fuel rest2).map (fun p => ('\x08' :: p.1, p.2))
        else if e = 't' then (parseStr fuel rest2).map (fun p => ('\x09' :: p.1, p.2))
        else if e = 'n' then (parseStr fuel rest2).map (fun p => ('\x0a' :: p.1, p.2))
        else if e = 'f' then (parseStr fuel rest2).map (fun p => ('\x0c' :: p.1, p.2))
        else if e = 'r' then (parseStr fuel rest2).map (fun p => ('\x0d' :: p.1, p.2))
        else if e = 'u' then
          match rest2 with
          | h1 :: h2 :: h3 :: h4 :: rest3 =>
            match hexVal h1, hexVal h2, hexVal h3, hexVal h4 with
            | some a, some b, some c2, some d =>
              (parseStr fuel rest3).map
                (fun p => (Char.ofNat (4096 * a + 256 * b + 16 * c2 + d) :: p.1, p.2))
            | _, _, _, _ => none
          | _ => none
        else none
    else (parseStr fuel rest).map (fun p => (c :: p.1, p.2))

/-- Consume an expected literal from the front of the input. -/
def dropLit : Str → Str → Option Str
  | [], s => some s
  | _ :: _, [] => none
  | c :: cs, d :: ds => if c = d then dropLit cs ds else none

/-- Client-side decoding of one encoded unit (the `json.loads` counterpart
restricted to the unit shape `generate_stream` emits), returning its `text`
field. -/
def decodeUnit (s : Str) : Option Str :=
  match dropLit jsonHead s with
  | none => none
  | some r =>
    match parseStr r.length r with
    | none => none
    | some (t, r2) => if r2 = jsonTail then some t else none

/-- Client-side sentinel framing: split the received byte stream into the
complete frames (each terminated by a sentinel) and the trailing partial
frame, which the spec calls a framing error when nonempty at end of
stream. -/
def splitFrames : Str → List Str × Str
  | [] => ([], [])
  | c :: rest =>
    let p := splitFrames rest
    if c = sentinel then ([] :: p.1, p.2)
    else
      match p with
      | (f :: fs, r) => ((c :: f) :: fs, r)
      | ([], r) => ([], c :: r)

/- ----------------------------------------------------------------------
The generation loop of `generate_stream` and the non-streaming `generate`:

    async for request_output in results_generator:
        prompt = request_output.prompt
        if echo:
            text_outputs = [prompt + output.text for output in request_output.outputs]
        else:
            text_outputs = [output.text for output in request_output.outputs]
        text_outputs = " ".join(text_outputs)
        ret = \x7b"text": text_outputs, "error_code": 0, "usage": \x7b\x7d\x7d
        yield (json.dumps(ret) + "\x00").encode()

    async def generate(self, params):
        async for x in self.generate_stream(params):
            pass
        return json.loads(x[:-1].decode())
---------------------------------------------------------------------- -/

/-- One `RequestOutput` yielded by the engine: the echoed prompt and the
`output.text` of each of its outputs. -/
structure ROutput where
  prompt : Str
  outputs : List Str
deriving DecidableEq

/-- The `text` field of the unit built from one engine output: each
output's text, prompt-prepended when `echo`, joined with `" ".join`. -/
def unitText (echo : Bool) (ro : ROutput) : Str :=
  List.intercalate " ".data
    (ro.outputs.map (fun o => if echo then ro.prompt ++ o else o))

/-- The sequence of `text` values of the units `generate_stream` yields for
the engine's output sequence, with `echo = params.get("echo", True)`. -/
def streamTexts (p : GenParams) (outs : List ROutput) : List Str :=
  outs.map (unitText (p.echo.getD true))

/-- One yielded increment: the encoded unit followed by the sentinel. -/
def chunkOf (t : Str) : Str := encodeUnit t ++ [sentinel]

/-- The full sequence of increments yielded by `generate_stream`. -/
def generateStream (p : GenParams) (outs : List ROutput) : List Str :=
  (streamTexts p outs).map chunkOf

/-- The non-streaming `generate`: exhaust the stream, keep only the last
chunk `x`, strip the sentinel (`x[:-1]`) and decode (`json.loads`).  When
the engine yields nothing, `x` is unbound and the Python raises; modelled
as `none`. -/
def generate (p : GenParams) (outs : List ROutput) : Option Str :=
  match (generateStream p outs).getLast? with
  | some x => decodeUnit x.dropLast
  | none => none

/- ----------------------------------------------------------------------
Admission control, from the worker module:

    def release_worker_semaphore():
        worker.semaphore.release()

    def acquire_worker_semaphore():
        if worker.semaphore is None:
            worker.semaphore = asyncio.Semaphore(worker.limit_worker_concurrency)
        return worker.semaphore.acquire()

and the two HTTP handlers driving it (`api_generate_stream`,
`api_generate`).  The semaphore is created once with a fixed capacity
(`limit_worker_concurrency`); `acquire` suspends while the internal
counter is zero and otherwise decrements it, `release` increments it, and
nothing else touches it.  A request passes through these stages:
- `start`: handler entered, prompt being built (before any acquire);
- `failedEarly`: `get_conversation_prompt` raised before the acquire;
- `admitted`: `acquire_worker_semaphore` returned, slot held;
- `released`: the request resolved and `release_worker_semaphore` ran
  (manually after `await worker.generate` on the non-streaming path, or as
  a registered background task on the streaming path);
- `leaked`: the request resolved on a path that skipped the release (the
  non-streaming handler has no try/finally around `await worker.generate`).
The step relation below lets any pending request move at any moment, so
reachability ranges over every interleaving of successful, failing and
aborted requests; both resolution steps (with and without release) are
always allowed for an admitted request.
---------------------------------------------------------------------- -/

/-- Lifecycle stage of one request with respect to the admission
semaphore. -/
inductive RStage where
  | start
  | failedEarly
  | admitted
  | released
  | leaked
deriving DecidableEq

/-- Worker state: the semaphore's available-slot counter and the stage of
each request. -/
structure WState where
  avail : ℕ
  stages : List RStage
deriving DecidableEq

/-- One scheduler step: some request `i` advances.  `acquire` fires only
when the counter is positive and decrements it; `finishRelease` increments
it; the other steps leave it unchanged.  The counter is mutated by no other
step. -/
inductive WStep : WState → WState → Prop where
  | failEarly (s : WState) (i : ℕ) (h : s.stages[i]? = some .start) :
      WStep s ⟨s.avail, s.stages.set i .failedEarly⟩
  | acquire (s : WState) (i k : ℕ) (h : s.stages[i]? = some .start)
      (ha : s.avail = k + 1) :
      WStep s ⟨k, s.stages.set i .admitted⟩
  | finishRelease (s : WState) (i : ℕ) (h : s.stages[i]? = some .admitted) :
      WStep s ⟨s.avail + 1, s.stages.set i .released⟩
  | finishLeak (s : WState) (i : ℕ) (h : s.stages[i]? = some .admitted) :
      WStep s ⟨s.avail, s.stages.set i .leaked⟩

/-- Worker startup state: the full capacity is available and none of the
`n` requests has run yet. -/
def initW (capacity n : ℕ) : WState := ⟨capacity, List.replicate n .start⟩

/-- Reachability from worker startup under any interleaving. -/
def WReach (capacity n : ℕ) (s : WState) : Prop :=
  Relation.ReflTransGen WStep (initW capacity n) s

/-- Number of requests currently holding an admission slot. -/
def countAdmitted (l : List RStage) : ℕ :=
  l.countP (fun st => st == RStage.admitted)

/-- Number of slots unavailable to new requests: held by an admitted
request or lost to a leak. -/
def heldSlots (l : List RStage) : ℕ :=
  l.countP (fun st => st == RStage.admitted || st == RStage.leaked)

/- ----------------------------------------------------------------------
HTTP handler control flow, from:

    @router.post("/worker_generate_stream")
    async def api_generate_stream(request):
        params = await request.json()
        params["prompt"] = get_conversation_prompt(params)   # may raise, before acquire
        await acquire_worker_semaphore()
        request_id = random_uuid()
        params["request_id"] = request_id
        generator = worker.generate_stream(params)           # body not yet run
        background_tasks = create_background_tasks(request_id)
        return StreamingResponse(generator, background=background_tasks)

    @router.post("/worker_generate")
    async def api_generate(request):
        params = await request.json()
        params["prompt"] = get_conversation_prompt(params)
        await acquire_worker_semaphore()
        request_id = random_uuid()
        params["request_id"] = request_id
        output = await worker.generate(params)               # may raise
        release_worker_semaphore()
        await engine.abort(request_id)
        return JSONResponse(output)

    def create_background_tasks(request_id):
        async def abort_request():
            await engine.abort(request_id)
        background_tasks = BackgroundTasks()
        background_tasks.add_task(release_worker_semaphore)
        background_tasks.add_task(abort_request)
        return background_tasks

Each handler run is abstracted as the ordered list of its observable
events.  Note that `float(params.get("temperature", 1.0))` and the other
sampling-config conversions run inside the `generate_stream` generator
body, which executes only when the already-returned `StreamingResponse`
iterates the generator — after the semaphore has been acquired.  What the
transport layer does after such a mid-stream failure surfaces is framework
behaviour outside this repository and is left out of the trace.
---------------------------------------------------------------------- -/

/-- Observable events of one handler run. -/
inductive Ev where
  | evAcquire
  | evRelease
  | evRespond
  | evRaise
  | evValidationFail
  | evStreamDone
  | evDisconnect
  | evAbort (rid : ℕ)
deriving DecidableEq

/-- How a streamed response ends: body exhausted, or client disconnected
mid-stream. -/
inductive StreamExit where
  | completed
  | disconnected
deriving DecidableEq

/-- The background cleanup registered by `create_background_tasks`: release
the slot, then abort the request id at the engine, in that order. -/
def bgTasks (rid : ℕ) : List Ev := [Ev.evRelease, Ev.evAbort rid]

/-- Event trace of one `api_generate_stream` run.  `promptOk`: whether
`get_conversation_prompt` succeeds; `sampOk`: whether the sampling-config
conversions inside the `generate_stream` body succeed; `ex`: how the
streamed response ends.  The registered background tasks run when the
response body finishes, normally or on client disconnect. -/
def streamTrace (rid : ℕ) (promptOk sampOk : Bool) (ex : StreamExit) : List Ev :=
  if promptOk = false then [Ev.evRaise]
  else
    Ev.evAcquire ::
      (if sampOk = false then [Ev.evValidationFail]
       else
         (match ex with
          | .completed => [Ev.evStreamDone]
          | .disconnected => [Ev.evDisconnect]) ++ bgTasks rid)

/-- Event trace of one `api_generate` run.  `engineOk`: whether
`await worker.generate(params)` returns normally.  When it raises, the
exception propagates out of the handler before the manual
`release_worker_semaphore()` and `engine.abort(request_id)` lines, so both
are skipped. -/
def genTrace (rid : ℕ) (promptOk engineOk : Bool) : List Ev :=
  if promptOk = false then [Ev.evRaise]
  else
    Ev.evAcquire ::
      (if engineOk = false then [Ev.evRaise]
       else [Ev.evRelease, Ev.evAbort rid, Ev.evRespond])

/-- Recognizer for engine-facing abort events. -/
def isAbortEv : Ev → Bool
  | .evAbort _ => true
  | _ => false

/- ----------------------------------------------------------------------
Codec lemmas: the escaping is injective with an executable inverse, the
sentinel never occurs in encoded payloads, and sentinel framing is exact.
---------------------------------------------------------------------- -/

theorem escString_cons (c : Char) (cs : Str) :
    escString (c :: cs) = escChar c ++ escString cs := by
  simp [escString]

theorem one_le_length_escChar (c : Char) : 1 ≤ (escChar c).length := by
  unfold escChar
  split_ifs <;> simp

theorem length_le_length_escString (t : Str) :
    t.length ≤ (escString t).length := by
  induction t with
  | nil => simp [escString]
  | cons c cs ih =>
    rw [escString_cons]
    have h1 := one_le_length_escChar c
    simp only [List.length_append, List.length_cons]
    omega

theorem hexVal_hexDigit (m : ℕ) (h : m < 16) : hexVal (hexDigit m) = some m := by
  interval_cases m <;> decide

theorem parseStr_esc (t : Str) : ∀ (fuel : ℕ) (rest : Str), t.length < fuel →
    parseStr fuel (escString t ++ '"' :: rest) = some (t, rest) := by
  induction t with
  | nil =>
    intro fuel rest h
    obtain ⟨f, rfl⟩ : ∃ f, fuel = f + 1 := ⟨fuel - 1, by omega⟩
    simp [escString, parseStr]
  | cons c cs ih =>
    intro fuel rest h
    obtain ⟨f, rfl⟩ : ∃ f, fuel = f + 1 := ⟨fuel - 1, by omega⟩
    have hcs : cs.length < f := by
      simp only [List.length_cons] at h
      omega
    have hrec := ih f rest hcs
    rw [escString_cons]
    by_cases h1 : c = '"'
    · subst h1
      simp [escChar, parseStr, hrec]
    by_cases h2 : c = '\\'
    · subst h2
      simp [escChar, parseStr, hrec]
    by_cases h3 : c = '\x08'
    · subst h3
      simp [escChar, parseStr, hrec]
    by_cases h4 : c = '\x09'
    · subst h4
      simp [escChar, parseStr, hrec]
    by_cases h5 : c = '\x0a'
    · subst h5
      simp [escChar, parseStr, hrec]
    by_cases h6 : c = '\x0c'
    · subst h6
      simp [escChar, parseStr, hrec]
    by_cases h7 : c = '\x0d'
    · subst h7
      simp [escChar, parseStr, hrec]
    by_cases h8 : c.toNat < 32
    · have hd1 : hexVal (hexDigit (c.toNat / 16)) = some (c.toNat / 16) :=
        hexVal_hexDigit _ (by omega)
      have hd2 : hexVal (hexDigit (c.toNat % 16)) = some (c.toNat % 16) :=
        hexVal_hexDigit _ (by omega)
      have hz : hexVal '0' = some 0 := by decide
      have hc : Char.ofNat (16 * (c.toNat / 16) + c.toNat % 16) = c := by
        have he : 16 * (c.toNat / 16) + c.toNat % 16 = c.toNat := by
          omega
        rw [he]
        exact Char.ofNat_toNat c
      simp [escChar, h1, h2, h3, h4, h5, h6, h7, h8, parseStr, hz, hd1, hd2, hc, hrec]
    · simp [escChar, h1, h2, h3, h4, h5, h6, h7, h8, parseStr, hrec]

theorem dropLit_append (l s : Str) : dropLit l (l ++ s) = some s := by
  induction l with
  | nil => rfl
  | cons c cs ih => simp [dropLit, ih]

/-- Decoding inverts encoding: `json.loads` of `json.dumps(ret)` recovers
the unit's text field. -/
theorem decodeUnit_encodeUnit (t : Str) : decodeUnit (encodeUnit t) = some t := by
  unfold decodeUnit encodeUnit
  simp only [dropLit_append]
  have hlen : t.length < (escString t ++ '"' :: jsonTail).length := by
    have := length_le_length_escString t
    simp only [List.length_append, List.length_cons]
    omega
  rw [parseStr_esc t _ jsonTail hlen]
  simp

theorem hexDigit_ne_sentinel (m : ℕ) (h : m < 16) : hexDigit m ≠ sentinel := by
  interval_cases m <;> decide

theorem sentinel_not_mem_escChar (c : Char) : sentinel ∉ escChar c := by
  unfold escChar
  split_ifs with h1 h2 h3 h4 h5 h6 h7 h8
  · decide
  · decide
  · decide
  · decide
  · decide
  · decide
  · decide
  · intro hm
    have hq : c.toNat / 16 < 16 := by omega
    have hr : c.toNat % 16 < 16 := by omega
    simp only [List.mem_cons, List.not_mem_nil, or_false] at hm
    rcases hm with h | h | h | h | h | h
    · exact absurd h (by decide)
    · exact absurd h (by decide)
    · exact absurd h (by decide)
    · exact absurd h (by decide)
    · exact hexDigit_ne_sentinel _ hq h.symm
    · exact hexDigit_ne_sentinel _ hr h.symm
  · intro hm
    simp only [List.mem_cons, List.not_mem_nil, or_false] at hm
    apply h8
    rw [← hm]
    decide

theorem sentinel_not_mem_escString (t : Str) : sentinel ∉ escString t := by
  induction t with
  | nil => simp [escString]
  | cons c cs ih =>
    rw [escString_cons]
    simp only [List.mem_append]
    rintro (h | h)
    · exact sentinel_not_mem_escChar c h
    · exact ih h

/-- The sentinel byte never occurs inside an encoded unit: `json.dumps`
escapes every control character, so the NUL frame delimiter is unambiguous. -/
theorem sentinel_not_mem_encodeUnit (t : Str) : sentinel ∉ encodeUnit t := by
  unfold encodeUnit
  simp only [List.mem_append, List.mem_cons]
  rintro (h | h | h | h)
  · exact absurd h (by decide)
  · exact sentinel_not_mem_escString t h
  · exact absurd h (by decide)
  · exact absurd h (by decide)

theorem splitFrames_frame (f : Str) (h : sentinel ∉ f) (rest : Str) :
    splitFrames (f ++ sentinel :: rest) =
      (f :: (splitFrames rest).1, (splitFrames rest).2) := by
  induction f with
  | nil => simp [splitFrames]
  | cons c cs ih =>
    have hc : ¬ c = sentinel := by
      intro he
      exact h (he ▸ List.mem_cons_self c cs)
    have hcs : sentinel ∉ cs := fun hm => h (List.mem_cons_of_mem _ hm)
    simp only [List.cons_append, splitFrames, hc, if_false]
    rw [show cs.append (sentinel :: rest) = cs ++ sentinel :: rest from rfl, ih hcs]

/-- Sentinel framing is exact: splitting the concatenated stream of
increments on the sentinel yields precisely the encoded units, in order,
with an empty trailing partial frame. -/
theorem splitFrames_stream (units : List Str) :
    splitFrames ((units.map chunkOf).flatten) = (units.map encodeUnit, []) := by
  induction units with
  | nil => rfl
  | cons u us ih =>
    simp only [List.map_cons, List.flatten_cons]
    have hc : chunkOf u ++ (us.map chunkOf).flatten =
        encodeUnit u ++ sentinel :: (us.map chunkOf).flatten := by
      simp [chunkOf]
    rw [hc, splitFrames_frame _ (sentinel_not_mem_encodeUnit u) _, ih]

/-- Claim C6: sampling normalization never produces `top_p = 0`: the result
is always positive; whenever `temperature ≤ ε` the result is forced to
exactly `1.0` regardless of the supplied `top_p`; whenever `temperature > ε`
and the supplied `top_p` is below `ε` the result is raised to exactly `ε`;
in particular `(temperature, top_p) = (0, 0.3)` normalizes to `1.0` and
`(0.7, 0)` normalizes to `ε`. -/
theorem normTopP_spec (temperature topP : ℚ) :
    0 < normTopP temperature topP ∧
    (temperature ≤ epsQ → normTopP temperature topP = 1) ∧
    (epsQ < temperature → topP < epsQ → normTopP temperature topP = epsQ) ∧
    normTopP 0 (3 / 10) = 1 ∧ normTopP (7 / 10) 0 = epsQ := by
  refine ⟨?_, ?_, ?_, ?_, ?_⟩
  · unfold normTopP
    split
    · norm_num
    · have h : epsQ ≤ max topP epsQ := le_max_right _ _
      have he : (0 : ℚ) < epsQ := by norm_num [epsQ]
      exact lt_of_lt_of_le he h
  · intro h
    simp [normTopP, h]
  · intro h1 h2
    have hn : ¬ temperature ≤ epsQ := not_le.mpr h1
    have hm : max topP epsQ = epsQ := max_eq_right (le_of_lt h2)
    simp [normTopP, hn, hm]
  · norm_num [normTopP, epsQ]
  · norm_num [normTopP, epsQ]

/-- Witness for `normTopP_spec` at the claim's two concrete examples. -/
theorem normTopP_spec_witness :
    normTopP 0 (3 / 10) = 1 ∧ normTopP (7 / 10) 0 = epsQ :=
  ⟨(normTopP_spec 0 (3 / 10)).2.1 (by norm_num [epsQ]),
   (normTopP_spec (7 / 10) 0).2.2.1 (by norm_num [epsQ]) (by norm_num [epsQ])⟩

/-- Claim C7: stop-string normalization maps an absent input to the empty
set, and maps a nonempty single string `s` and the one-element list `[s]`
to the same one-element set `{s}`. -/
theorem stopOfStr_spec (s : Str) (h : s ≠ []) :
    stopOfStr (.str s) = {s} ∧ stopOfStr (.list [s]) = {s} ∧
    stopOfStr .absent = ∅ := by
  refine ⟨?_, ?_, rfl⟩
  · simp [stopOfStr, h]
  · simp [stopOfStr]

/-- Witness for `stopOfStr_spec` at the claim's input `"STOP"`. -/
theorem stopOfStr_spec_witness :
    stopOfStr (.str "STOP".data) = {"STOP".data} ∧
    stopOfStr (.list ["STOP".data]) = {"STOP".data} ∧
    stopOfStr .absent = ∅ :=
  stopOfStr_spec "STOP".data (by decide)

/-- Claim C8: every non-`None` supplied stop token id is decoded and merged
into the stop set, and when the tokenizer defines an eos token id its
decoded string is in the stop set even when `stopTokenIds` omitted it. -/
theorem stopSet_spec (tok : Tok) (p : GenParams) :
    (∀ t : ℕ, some t ∈ p.stopTokenIds.getD [] → tok.decode t ∈ stopSet tok p) ∧
    (∀ e : ℕ, tok.eos = some e → tok.decode e ∈ stopSet tok p) := by
  constructor
  · intro t ht
    apply Finset.mem_union_right
    simp only [List.mem_toFinset, List.mem_map]
    refine ⟨t, ?_, rfl⟩
    simp only [List.mem_filterMap]
    refine ⟨some t, ?_, rfl⟩
    unfold effStopIds
    cases tok.eos with
    | some e => exact List.mem_append_left _ ht
    | none => exact ht
  · intro e he
    apply Finset.mem_union_right
    simp only [List.mem_toFinset, List.mem_map]
    refine ⟨e, ?_, rfl⟩
    simp only [List.mem_filterMap]
    refine ⟨some e, ?_, rfl⟩
    unfold effStopIds
    rw [he]
    exact List.mem_append_right _ (List.mem_singleton.mpr rfl)

/-- Witness for `stopSet_spec`: a concrete tokenizer whose eos id is `2`
and a request supplying stop token id `5`; both decoded strings land in the
stop set. -/
theorem stopSet_spec_witness :
    (Tok.mk (some 2) (fun n => [Char.ofNat (65 + n)])).decode 5 ∈
      stopSet (Tok.mk (some 2) (fun n => [Char.ofNat (65 + n)]))
        { stopTokenIds := some [some 5] } ∧
    (Tok.mk (some 2) (fun n => [Char.ofNat (65 + n)])).decode 2 ∈
      stopSet (Tok.mk (some 2) (fun n => [Char.ofNat (65 + n)]))
        { stopTokenIds := some [some 5] } :=
  ⟨(stopSet_spec (Tok.mk (some 2) (fun n => [Char.ofNat (65 + n)]))
      { stopTokenIds := some [some 5] }).1 5 (by decide),
   (stopSet_spec (Tok.mk (some 2) (fun n => [Char.ofNat (65 + n)]))
      { stopTokenIds := some [some 5] }).2 2 rfl⟩

/-- Claim C9: every increment yielded by `generate_stream` is the JSON
encoding of a unit (its `text`, `error_code = 0` and empty `usage`)
followed by exactly one sentinel byte; the sentinel occurs zero times
inside the encoded payload itself, so splitting the concatenated stream on
the sentinel reconstructs the original ordered sequence of units exactly,
and decoding the frames recovers every unit's text in order. -/
theorem generateStream_framing (p : GenParams) (outs : List ROutput) :
    generateStream p outs =
      (streamTexts p outs).map (fun t => encodeUnit t ++ [sentinel]) ∧
    (∀ t : Str, (encodeUnit t).count sentinel = 0) ∧
    splitFrames (generateStream p outs).flatten =
      ((streamTexts p outs).map encodeUnit, []) ∧
    (splitFrames (generateStream p outs).flatten).1.map decodeUnit =
      (streamTexts p outs).map some := by
  refine ⟨rfl, ?_, ?_, ?_⟩
  · intro t
    exact List.count_eq_zero.mpr (sentinel_not_mem_encodeUnit t)
  · exact splitFrames_stream _
  · rw [show (generateStream p outs).flatten =
        ((streamTexts p outs).map chunkOf).flatten from rfl, splitFrames_stream]
    simp [List.map_map, Function.comp_def, decodeUnit_encodeUnit]

/-- Claim C3: the non-streaming `generate` returns exactly the decoded
final unit of the stream `generate_stream` produces on the same input:
whenever the engine yields at least one output, `generate` equals the last
`text` value of the streamed units, so the two modes converge to identical
final text. -/
theorem generate_eq_last_streamText (p : GenParams) (outs : List ROutput)
    (h : outs ≠ []) : generate p outs = (streamTexts p outs).getLast? := by
  have hs : streamTexts p outs ≠ [] := by
    simp [streamTexts, h]
  obtain ⟨u, hu⟩ : ∃ u, (streamTexts p outs).getLast? = some u := by
    cases hl : (streamTexts p outs).getLast? with
    | some u => exact ⟨u, rfl⟩
    | none => exact absurd (List.getLast?_eq_none_iff.mp hl) hs
  unfold generate generateStream
  rw [List.getLast?_map, hu]
  show decodeUnit (chunkOf u).dropLast = some u
  rw [show (chunkOf u).dropLast = encodeUnit u from by simp [chunkOf],
     decodeUnit_encodeUnit]

/-- Witness for `generate_eq_last_streamText` at a one-output engine run. -/
theorem generate_eq_last_streamText_witness :
    generate {} [ROutput.mk "p".data ["x".data]] =
      (streamTexts {} [ROutput.mk "p".data ["x".data]]).getLast? :=
  generate_eq_last_streamText {} [ROutput.mk "p".data ["x".data]]
    (List.cons_ne_nil _ _)

theorem intercalate_cons_eq_append (sep x : Str) (xs : List Str) :
    ∃ tail, List.intercalate sep (x :: xs) = x ++ tail := by
  cases xs with
  | nil => exact ⟨[], by simp [List.intercalate]⟩
  | cons y ys =>
    refine ⟨sep ++ (List.intersperse sep (y :: ys)).flatten, ?_⟩
    simp [List.intercalate, List.intersperse]

theorem unitText_true_eq_append (ro : ROutput) (h : ro.outputs ≠ []) :
    ∃ tail, unitText true ro = ro.prompt ++ tail := by
  obtain ⟨o, os, ho⟩ : ∃ o os, ro.outputs = o :: os := by
    cases hc : ro.outputs with
    | nil => exact absurd hc h
    | cons o os => exact ⟨o, os, rfl⟩
  unfold unitText
  rw [ho, List.map_cons]
  show ∃ tail,
    List.intercalate " ".data
      ((ro.prompt ++ o) :: os.map (fun o2 => if true then ro.prompt ++ o2 else o2)) =
    ro.prompt ++ tail
  obtain ⟨tail, ht⟩ := intercalate_cons_eq_append " ".data (ro.prompt ++ o)
    (os.map (fun o2 => if true then ro.prompt ++ o2 else o2))
  exact ⟨o ++ tail, by rw [ht, List.append_assoc]⟩

/-- Claim C10: when the request omits the echo key,
`params.get("echo", True)` resolves it to `True`, every unit text yielded
by `generate_stream` then begins with that output's full prompt string,
and only an explicit `echo = False` yields the joined continuation texts
alone. -/
theorem echo_default_spec (p : GenParams) (outs : List ROutput) :
    (p.echo = none → p.echo.getD true = true) ∧
    (p.echo = none → streamTexts p outs = outs.map (unitText true)) ∧
    (p.echo = none → ∀ ro ∈ outs, ro.outputs ≠ [] →
      ∃ tail, unitText (p.echo.getD true) ro = ro.prompt ++ tail) ∧
    (p.echo = some false →
      streamTexts p outs =
        outs.map (fun ro => List.intercalate " ".data ro.outputs)) := by
  refine ⟨?_, ?_, ?_, ?_⟩
  · intro h
    rw [h]
    rfl
  · intro h
    rw [streamTexts, h]
    rfl
  · intro h ro _ hro
    rw [h]
    exact unitText_true_eq_append ro hro
  · intro h
    rw [streamTexts, h]
    show outs.map (unitText false) = _
    apply List.map_congr_left
    intro ro _
    unfold unitText
    simp

/-- Witness for `echo_default_spec`: a request with no echo key and one
engine output; the unit text begins with the prompt. -/
theorem echo_default_spec_witness :
    ∃ tail, unitText (({} : GenParams).echo.getD true)
        (ROutput.mk "P".data ["x".data]) =
      (ROutput.mk "P".data ["x".data]).prompt ++ tail :=
  (echo_default_spec {} [ROutput.mk "P".data ["x".data]]).2.2.1 rfl
    (ROutput.mk "P".data ["x".data]) (List.mem_cons_self _ _)
    (List.cons_ne_nil _ _)

theorem countP_set_eq {α : Type} (p : α → Bool) (l : List α) (i : ℕ) (a b : α)
    (h : l[i]? = some a) :
    (l.set i b).countP p + (if p a then 1 else 0)
      = l.countP p + (if p b then 1 else 0) := by
  induction l generalizing i with
  | nil => simp at h
  | cons c cs ih =>
    cases i with
    | zero =>
      rw [List.getElem?_cons_zero, Option.some_inj] at h
      subst h
      rw [List.set_cons_zero, List.countP_cons, List.countP_cons]
      omega
    | succ j =>
      rw [List.getElem?_cons_succ] at h
      have hj := ih j h
      rw [List.set_cons_succ, List.countP_cons, List.countP_cons]
      omega

/-- Exchange lemma for `heldSlots` under a single stage update. -/
theorem heldSlots_set (l : List RStage) (i : ℕ) (a b : RStage)
    (h : l[i]? = some a) :
    heldSlots (l.set i b)
        + (if a = RStage.admitted ∨ a = RStage.leaked then 1 else 0)
      = heldSlots l
        + (if b = RStage.admitted ∨ b = RStage.leaked then 1 else 0) := by
  have hc := countP_set_eq
    (fun st => st == RStage.admitted || st == RStage.leaked) l i a b h
  have ea : ∀ x : RStage,
      (if (x == RStage.admitted || x == RStage.leaked) = true then 1 else 0)
        = (if x = RStage.admitted ∨ x = RStage.leaked then (1 : ℕ) else 0) := by
    intro x
    cases x <;> decide
  rw [ea a, ea b] at hc
  exact hc

/-- The semaphore invariant: in every reachable worker state the available
counter plus the slots held or leaked equals the fixed capacity. -/
theorem wreach_invariant (capacity n : ℕ) (s : WState)
    (h : WReach capacity n s) :
    s.avail + heldSlots s.stages = capacity := by
  induction h with
  | refl =>
    have hz : heldSlots (initW capacity n).stages = 0 := by
      apply List.countP_eq_zero.mpr
      intro a ha
      rw [List.eq_of_mem_replicate ha]
      decide
    rw [hz]
    rfl
  | @tail b c _ hstep ih =>
    cases hstep with
    | failEarly i h =>
      have hc := heldSlots_set b.stages i RStage.start RStage.failedEarly h
      rw [if_neg (by decide), if_neg (by decide)] at hc
      show b.avail + heldSlots (b.stages.set i RStage.failedEarly) = capacity
      omega
    | acquire i k h ha =>
      have hc := heldSlots_set b.stages i RStage.start RStage.admitted h
      rw [if_neg (by decide), if_pos (by decide)] at hc
      show k + heldSlots (b.stages.set i RStage.admitted) = capacity
      omega
    | finishRelease i h =>
      have hc := heldSlots_set b.stages i RStage.admitted RStage.released h
      rw [if_pos (by decide), if_neg (by decide)] at hc
      show b.avail + 1 + heldSlots (b.stages.set i RStage.released) = capacity
      omega
    | finishLeak i h =>
      have hc := heldSlots_set b.stages i RStage.admitted RStage.leaked h
      rw [if_pos (by decide), if_pos (by decide)] at hc
      show b.avail + heldSlots (b.stages.set i RStage.leaked) = capacity
      omega

/-- Claim C1: for every capacity `C ≥ 1` fixed at worker startup, in every
state reachable under any interleaving of successful, failing and aborted
requests, the number of requests concurrently holding an admission slot
never exceeds `C`; the counter moves only through the acquire and release
steps of the transition relation. -/
theorem admitted_le_capacity (capacity n : ℕ) (hc : 1 ≤ capacity)
    (s : WState) (h : WReach capacity n s) :
    countAdmitted s.stages ≤ capacity := by
  have hinv := wreach_invariant capacity n s h
  have hle : countAdmitted s.stages ≤ heldSlots s.stages := by
    unfold countAdmitted heldSlots
    apply List.countP_mono_left
    intro a _ ha
    rw [ha]
    rfl
  omega

/-- Witness for `admitted_le_capacity`: capacity 1, one request, reached
after its acquire step; it holds one slot, not more. -/
theorem admitted_le_capacity_witness :
    countAdmitted (WState.mk 0 [RStage.admitted]).stages ≤ 1 :=
  admitted_le_capacity 1 1 (by decide) (WState.mk 0 [RStage.admitted])
    (Relation.ReflTransGen.single
      (WStep.acquire (initW 1 1) 0 0 (by decide) rfl))

/-- Claim C2 (refuted by the code): on the non-streaming endpoint the
release is manual bookkeeping, not a scoped resource: when
`await worker.generate(params)` raises (engine error mid-generation) the
handler exits with the exception before reaching
`release_worker_semaphore()`, so the admitted request releases its slot
zero times instead of exactly once, while the successful path releases it
exactly once. -/
theorem genTrace_engineError_skips_release :
    genTrace 0 true false = [Ev.evAcquire, Ev.evRaise] ∧
    (genTrace 0 true false).count Ev.evRelease = 0 ∧
    (genTrace 0 true true).count Ev.evRelease = 1 :=
  ⟨rfl, rfl, rfl⟩

/-- Claim C4: when a streamed request ends by client disconnect the
registered background cleanup runs release-then-abort: the engine-facing
abort is invoked exactly once, with that request's id, and the slot
release is part of the same cleanup; on the non-streaming path after
successful completion the abort is likewise invoked exactly once with the
request's id, immediately after the release (the engine treats aborting an
already-finished id as a no-op). -/
theorem abort_once_per_request (rid : ℕ) :
    streamTrace rid true true .disconnected =
      [Ev.evAcquire, Ev.evDisconnect, Ev.evRelease, Ev.evAbort rid] ∧
    (streamTrace rid true true .disconnected).filter isAbortEv =
      [Ev.evAbort rid] ∧
    (streamTrace rid true true .disconnected).count Ev.evRelease = 1 ∧
    (genTrace rid true true).filter isAbortEv = [Ev.evAbort rid] ∧
    (genTrace rid true true).count Ev.evRelease = 1 :=
  ⟨rfl, rfl, rfl, rfl, rfl⟩

/-- Claim C5 counterexample: a request whose prompt builds fine but whose
sampling configuration is malformed (`float(...)` raises inside the
`generate_stream` body) still acquires an admission slot: the acquire
event precedes the validation failure in the streaming handler's trace,
refuting rejection-before-admission. -/
theorem malformed_sampling_acquires_slot :
    streamTrace 0 true false StreamExit.completed =
      [Ev.evAcquire, Ev.evValidationFail] ∧
    Ev.evAcquire ∈ streamTrace 0 true false StreamExit.completed :=
  ⟨rfl, by decide⟩

/-- Claim C5 amended: a malformed prompt (message structure) is rejected
before admission — `get_conversation_prompt` raises and the trace holds no
acquire; a malformed sampling configuration, however, is detected only
inside the `generate_stream` body, after the admission slot has been
acquired, so a slot is consumed before that error surfaces. -/
theorem validation_order_spec (rid : ℕ) (sampOk : Bool) (ex : StreamExit) :
    streamTrace rid false sampOk ex = [Ev.evRaise] ∧
    (streamTrace rid false sampOk ex).count Ev.evAcquire = 0 ∧
    streamTrace rid true false ex = [Ev.evAcquire, Ev.evValidationFail] :=
  ⟨rfl, rfl, rfl⟩
